import Mathlib

/-!
Shallow embedding of the IndirectForth virtual machine (src/Forth.cpp).

The C++ program keeps a 65536-byte memory `Memory`, three 16-bit
registers `IP`, `PSP`, `RSP`, and blocking character input/output.
All 16-bit values are stored little-endian (`*(uint16_t*)&Memory[a]`
on the x86 target).  Register arithmetic is `uint16_t` arithmetic,
i.e. modulo 2^16.  The few situations where the C++ program indexes
out of the 65536-byte allocation (undefined behaviour in C++) are
totalised here by the same modulo-2^16 wraparound; every claim below
is settled away from those corners or is explicit about them.

Two faithfully-preserved quirks of the source matter below:

* `PStack<T>(offset)` returns `Memory[PSP + offset]`, and
  `PStack_Push`/`PStack_Pop` pass the current stack pointer itself as
  `offset`, so a push stores its value at address `PSP + PSP`
  (taken modulo 2^16, because the offset parameter is `int16_t`),
  not at `PSP`; a pop re-reads the doubled address, so push/pop
  round-trip.  Direct cell accesses such as `PStack<int16_t>(-2)`
  use the undoubled address `PSP - 2`.  The return stack is identical.

* In `DOVAR`, the pushed expression `Mem<uint16_t>(IP - 2) + 2` has
  C++ type `int` (integer promotion), so the template push writes
  `sizeof(int) = 4` bytes and advances `PSP` by 4, not 2.
-/

set_option maxRecDepth 8000

namespace IndirectForth

/-- Machine state of the virtual machine: the byte memory (values read
modulo 256), the three 16-bit registers, and the character streams
consumed by `KEY` and produced by `EMIT`. -/
structure Machine where
  mem : Nat → Nat
  IP : Nat
  PSP : Nat
  RSP : Nat
  inp : List Nat
  out : List Nat

/-- Read one byte: `Memory[a]` with the address wrapped to 16 bits. -/
def read8 (s : Machine) (a : Nat) : Nat := s.mem (a % 65536) % 256

/-- Write one byte at the wrapped address. -/
def write8 (s : Machine) (a v : Nat) : Machine :=
  { s with mem := fun x => if x = a % 65536 then v % 256 else s.mem x }

/-- Little-endian 16-bit read, `Mem<uint16_t>(a)` / `Mem<int16_t>(a)`
at the bit level. -/
def read16 (s : Machine) (a : Nat) : Nat := read8 s a + 256 * read8 s (a + 1)

/-- Little-endian 16-bit write. -/
def write16 (s : Machine) (a v : Nat) : Machine :=
  write8 (write8 s a (v % 256)) (a + 1) (v / 256)

/-- Little-endian 32-bit write; used by the accidental 4-byte push in
`DOVAR` (`sizeof(int) = 4`). -/
def write32 (s : Machine) (a v : Nat) : Machine :=
  write16 (write16 s a (v % 65536)) (a + 2) (v / 65536)

/-- The signed (two's-complement `int16_t`) value of a 16-bit pattern. -/
def toInt16 (n : Nat) : Int :=
  if n % 65536 < 32768 then (n % 65536 : Int) else (n % 65536 : Int) - 65536

/-- The 16-bit pattern of an integer, i.e. conversion to `int16_t` /
`uint16_t` with two's-complement wraparound. -/
def fromInt16 (i : Int) : Nat := (i % 65536).toNat

/-- The signed (`int8_t`) value of a byte. -/
def toInt8 (b : Nat) : Int :=
  if b % 256 < 128 then (b % 256 : Int) else (b % 256 : Int) - 256

/-- The 16-bit pattern obtained by sign-extending a byte,
`(int16_t)(int8_t)b` at the bit level. -/
def signExt8 (b : Nat) : Nat :=
  if b % 256 < 128 then b % 256 else b % 256 + 65280

/-- `PStack_Push<T>` for a 16-bit `T`: stores at `Memory[PSP + PSP]`
(the source passes `PSP` itself as the `int16_t` offset parameter of
`PStack`, which adds it to `PSP` again, landing on `2*PSP mod 2^16`),
then `PSP += 2`. -/
def PStack_Push16 (s : Machine) (v : Nat) : Machine :=
  { write16 s (s.PSP + s.PSP) v with PSP := (s.PSP + 2) % 65536 }

/-- `PStack_Push<int>`: the 4-byte push performed by `DOVAR`;
same doubled address, `PSP += 4`. -/
def PStack_Push32 (s : Machine) (v : Nat) : Machine :=
  { write32 s (s.PSP + s.PSP) v with PSP := (s.PSP + 4) % 65536 }

/-- `PStack_Pop<T>` for a 16-bit `T`: `PSP -= 2`, then read
`Memory[PSP + PSP]` with the decremented pointer. -/
def PStack_Pop16 (s : Machine) : Nat × Machine :=
  let p := (s.PSP + 65534) % 65536
  (read16 s (p + p), { s with PSP := p })

/-- `RStack_Push<T>` for a 16-bit `T` (same doubled-address layout as
the parameter stack, with `RSP`). -/
def RStack_Push16 (s : Machine) (v : Nat) : Machine :=
  { write16 s (s.RSP + s.RSP) v with RSP := (s.RSP + 2) % 65536 }

/-- `RStack_Pop<T>` for a 16-bit `T`. -/
def RStack_Pop16 (s : Machine) : Nat × Machine :=
  let r := (s.RSP + 65534) % 65536
  (read16 s (r + r), { s with RSP := r })

/-- `DOCOL`: push the current `IP` on the return stack, then
`IP = Mem<uint16_t>(IP - 2) + 2` (the target cell is re-read from
memory after the push, exactly as in the source). -/
def DOCOL (s : Machine) : Machine :=
  let s1 := RStack_Push16 s s.IP
  { s1 with IP := (read16 s1 ((s.IP + 65534) % 65536) + 2) % 65536 }

/-- `DOCON`: push the 16-bit body cell at `target + 2`,
where `target = Mem<uint16_t>(IP - 2)`. -/
def DOCON (s : Machine) : Machine :=
  PStack_Push16 s (read16 s (read16 s ((s.IP + 65534) % 65536) + 2))

/-- `DOVAR`: push `Mem<uint16_t>(IP - 2) + 2`.  The expression has
C++ type `int`, so this is a 4-byte push (note the value is the plain
sum, not reduced modulo 2^16: the `int` keeps `target + 2` exactly). -/
def DOVAR (s : Machine) : Machine :=
  PStack_Push32 s (read16 s ((s.IP + 65534) % 65536) + 2)

/-- `EXIT`: pop the return stack into `IP`. -/
def EXIT (s : Machine) : Machine :=
  let v := (RStack_Pop16 s).fst
  { (RStack_Pop16 s).snd with IP := v }

/-- `DROP`: `PSP -= 2`. -/
def DROP (s : Machine) : Machine :=
  { s with PSP := (s.PSP + 65534) % 65536 }

/-- `SWAP`: `std::swap(PStack<uint16_t>(-2), PStack<uint16_t>(-4))`,
i.e. swap the cells at the plain addresses `PSP - 2` and `PSP - 4`. -/
def SWAP (s : Machine) : Machine :=
  let a := (s.PSP + 65534) % 65536
  let b := (s.PSP + 65532) % 65536
  let x := read16 s a
  let y := read16 s b
  write16 (write16 s a y) b x

/-- `DUP`: push (doubled-address push) the cell read at the plain
address `PSP - 2`. -/
def DUP (s : Machine) : Machine :=
  PStack_Push16 s (read16 s ((s.PSP + 65534) % 65536))

/-- `ROT`: rotate the three cells at plain addresses `PSP-6`, `PSP-4`,
`PSP-2`, in the source's sequential order. -/
def ROT (s : Machine) : Machine :=
  let a6 := (s.PSP + 65530) % 65536
  let a4 := (s.PSP + 65532) % 65536
  let a2 := (s.PSP + 65534) % 65536
  let t := read16 s a6
  let s1 := write16 s a6 (read16 s a4)
  let s2 := write16 s1 a4 (read16 s1 a2)
  write16 s2 a2 t

/-- `OVER`: push the cell read at the plain address `PSP - 4`. -/
def OVER (s : Machine) : Machine :=
  PStack_Push16 s (read16 s ((s.PSP + 65532) % 65536))

/-- `ADD`: pop a value (doubled address), then
`PStack<int16_t>(-2) += Value` at the plain address `PSP - 2`
(16-bit two's-complement wraparound). -/
def ADD (s : Machine) : Machine :=
  let v := (PStack_Pop16 s).fst
  let s1 := (PStack_Pop16 s).snd
  let a := (s1.PSP + 65534) % 65536
  write16 s1 a ((read16 s1 a + v) % 65536)

/-- `SUB`: like `ADD` with subtraction (wraparound). -/
def SUB (s : Machine) : Machine :=
  let v := (PStack_Pop16 s).fst
  let s1 := (PStack_Pop16 s).snd
  let a := (s1.PSP + 65534) % 65536
  write16 s1 a ((read16 s1 a + 65536 - v) % 65536)

/-- `MUL`: like `ADD` with multiplication (low 16 bits). -/
def MUL (s : Machine) : Machine :=
  let v := (PStack_Pop16 s).fst
  let s1 := (PStack_Pop16 s).snd
  let a := (s1.PSP + 65534) % 65536
  write16 s1 a ((read16 s1 a * v) % 65536)

/-- `DIVMOD`: with `x = PStack<int16_t>(-4)` and
`y = PStack<int16_t>(-2)` (plain addresses), store `x tmod y` at
`PSP - 4` and `x tdiv y` at `PSP - 2`; C++ `int16_t` division
truncates toward zero with the remainder taking the dividend's sign,
and the results are stored back with `int16_t` wraparound. -/
def DIVMOD (s : Machine) : Machine :=
  let a4 := (s.PSP + 65532) % 65536
  let a2 := (s.PSP + 65534) % 65536
  let x := toInt16 (read16 s a4)
  let y := toInt16 (read16 s a2)
  write16 (write16 s a4 (fromInt16 (Int.tmod x y))) a2 (fromInt16 (Int.tdiv x y))

/-- `EQU`: pop a value, store all-ones (true) or zero at `PSP - 2`
according to 16-bit equality. -/
def EQU (s : Machine) : Machine :=
  let v := (PStack_Pop16 s).fst
  let s1 := (PStack_Pop16 s).snd
  let a := (s1.PSP + 65534) % 65536
  write16 s1 a (if read16 s1 a = v then 65535 else 0)

/-- `LT` of the source (named `LT'` here because `LT` is the Lean core
order class): signed less-than producing the canonical booleans. -/
def LT' (s : Machine) : Machine :=
  let v := (PStack_Pop16 s).fst
  let s1 := (PStack_Pop16 s).snd
  let a := (s1.PSP + 65534) % 65536
  write16 s1 a (if toInt16 (read16 s1 a) < toInt16 v then 65535 else 0)

/-- `AND`: bitwise and of the popped value into the cell at `PSP - 2`. -/
def AND (s : Machine) : Machine :=
  let v := (PStack_Pop16 s).fst
  let s1 := (PStack_Pop16 s).snd
  let a := (s1.PSP + 65534) % 65536
  write16 s1 a (Nat.land (read16 s1 a) v)

/-- `OR`: bitwise or. -/
def OR (s : Machine) : Machine :=
  let v := (PStack_Pop16 s).fst
  let s1 := (PStack_Pop16 s).snd
  let a := (s1.PSP + 65534) % 65536
  write16 s1 a (Nat.lor (read16 s1 a) v)

/-- `XOR`: bitwise exclusive or. -/
def XOR (s : Machine) : Machine :=
  let v := (PStack_Pop16 s).fst
  let s1 := (PStack_Pop16 s).snd
  let a := (s1.PSP + 65534) % 65536
  write16 s1 a (Nat.xor (read16 s1 a) v)

/-- `INVERT`: bitwise complement of the cell at `PSP - 2`. -/
def INVERT (s : Machine) : Machine :=
  let a := (s.PSP + 65534) % 65536
  write16 s a (65535 - read16 s a)

/-- `LIT`: push the inline cell at `IP`, then `IP += 2`. -/
def LIT (s : Machine) : Machine :=
  { PStack_Push16 s (read16 s s.IP) with IP := (s.IP + 2) % 65536 }

/-- `STORE` (`!`): pop an address, pop a value, write the 16-bit cell. -/
def STORE (s : Machine) : Machine :=
  let addr := (PStack_Pop16 s).fst
  let s1 := (PStack_Pop16 s).snd
  let v := (PStack_Pop16 s1).fst
  let s2 := (PStack_Pop16 s1).snd
  write16 s2 addr v

/-- `FETCH` (`@`): pop an address, push the 16-bit cell there. -/
def FETCH (s : Machine) : Machine :=
  let addr := (PStack_Pop16 s).fst
  let s1 := (PStack_Pop16 s).snd
  PStack_Push16 s1 (read16 s1 addr)

/-- `STOREBYTE` (`C!`): pop an address, pop a value, store its low
byte (`(int8_t)` truncation). -/
def STOREBYTE (s : Machine) : Machine :=
  let addr := (PStack_Pop16 s).fst
  let s1 := (PStack_Pop16 s).snd
  let v := (PStack_Pop16 s1).fst
  let s2 := (PStack_Pop16 s1).snd
  write8 s2 addr (v % 256)

/-- `FETCHBYTE` (`C@`): pop an address, push the byte there
sign-extended to 16 bits (`(int16_t)Mem<int8_t>(addr)`). -/
def FETCHBYTE (s : Machine) : Machine :=
  let addr := (PStack_Pop16 s).fst
  let s1 := (PStack_Pop16 s).snd
  PStack_Push16 s1 (signExt8 (read8 s1 addr))

/-- `KEY`: push the next input character (blocking read modelled by a
list; an exhausted stream yields `WEOF`, whose `int16_t` pattern is
`0xFFFF`). -/
def KEY (s : Machine) : Machine :=
  match s.inp with
  | [] => PStack_Push16 s 65535
  | c :: cs => { PStack_Push16 s (c % 65536) with inp := cs }

/-- `EMIT`: pop a cell and write it to the output stream. -/
def EMIT (s : Machine) : Machine :=
  let v := (PStack_Pop16 s).fst
  let s1 := (PStack_Pop16 s).snd
  { s1 with out := s1.out ++ [v] }

/-- `BRANCH`: `IP += Mem<int16_t>(IP)`; at the bit level the signed
addend coincides with adding the 16-bit pattern modulo 2^16. -/
def BRANCH (s : Machine) : Machine :=
  { s with IP := (s.IP + read16 s s.IP) % 65536 }

/-- `ZBRANCH` (`0BRANCH`): pop a cell; if zero branch like `BRANCH`,
otherwise skip the offset cell (`IP += 2`). -/
def ZBRANCH (s : Machine) : Machine :=
  let v := (PStack_Pop16 s).fst
  let s1 := (PStack_Pop16 s).snd
  if v = 0 then { s1 with IP := (s1.IP + read16 s1 s1.IP) % 65536 }
  else { s1 with IP := (s1.IP + 2) % 65536 }

/-- `TOR` (`>R`): move a cell from the parameter stack to the return
stack. -/
def TOR (s : Machine) : Machine :=
  let v := (PStack_Pop16 s).fst
  let s1 := (PStack_Pop16 s).snd
  RStack_Push16 s1 v

/-- `FROMR` (`R>`): move a cell from the return stack to the parameter
stack. -/
def FROMR (s : Machine) : Machine :=
  let v := (RStack_Pop16 s).fst
  let s1 := (RStack_Pop16 s).snd
  PStack_Push16 s1 v

/-- `ADD_STORE` (`+!`): pop an address and a value, add the value into
the 16-bit cell at the address (wraparound). -/
def ADD_STORE (s : Machine) : Machine :=
  let addr := (PStack_Pop16 s).fst
  let s1 := (PStack_Pop16 s).snd
  let v := (PStack_Pop16 s1).fst
  let s2 := (PStack_Pop16 s1).snd
  write16 s2 addr ((read16 s2 addr + v) % 65536)

/-- `DSP_FETCH` (`DSP@`): push the current `PSP`. -/
def DSP_FETCH (s : Machine) : Machine := PStack_Push16 s s.PSP

/-- `DSP_STORE` (`DSP!`): pop a cell into `PSP`. -/
def DSP_STORE (s : Machine) : Machine :=
  let v := (PStack_Pop16 s).fst
  let s1 := (PStack_Pop16 s).snd
  { s1 with PSP := v }

/-- `RSP_FETCH` (`RSP@`): push the current `RSP`. -/
def RSP_FETCH (s : Machine) : Machine := PStack_Push16 s s.RSP

/-- `RSP_STORE` (`RSP!`): pop a cell into `RSP`. -/
def RSP_STORE (s : Machine) : Machine :=
  let v := (PStack_Pop16 s).fst
  let s1 := (PStack_Pop16 s).snd
  { s1 with RSP := v }

/-- The `NativeFuncs` table, as a function from the opcode index.
An index outside the 35-entry table is undefined behaviour in the
source (a wild function pointer); it is totalised as the identity. -/
def execPrim (id : Nat) (s : Machine) : Machine :=
  match id with
  | 0 => DOCOL s
  | 1 => DOCON s
  | 2 => DOVAR s
  | 3 => EXIT s
  | 4 => DROP s
  | 5 => SWAP s
  | 6 => DUP s
  | 7 => ROT s
  | 8 => OVER s
  | 9 => ADD s
  | 10 => SUB s
  | 11 => MUL s
  | 12 => DIVMOD s
  | 13 => EQU s
  | 14 => LT' s
  | 15 => AND s
  | 16 => OR s
  | 17 => XOR s
  | 18 => INVERT s
  | 19 => LIT s
  | 20 => STORE s
  | 21 => FETCH s
  | 22 => STOREBYTE s
  | 23 => FETCHBYTE s
  | 24 => KEY s
  | 25 => EMIT s
  | 26 => BRANCH s
  | 27 => ZBRANCH s
  | 28 => TOR s
  | 29 => FROMR s
  | 30 => ADD_STORE s
  | 31 => DSP_FETCH s
  | 32 => DSP_STORE s
  | 33 => RSP_FETCH s
  | 34 => RSP_STORE s
  | _ => s

/-- One cycle of the dispatch loop in `main`:
`id = Mem<uint16_t>(Mem<uint16_t>(IP)); IP += 2; NativeFuncs[id]();`. -/
def step (s : Machine) : Machine :=
  let id := read16 s (read16 s s.IP)
  execPrim id { s with IP := (s.IP + 2) % 65536 }

/-- An all-zero memory machine with the source's initial stack layout
(`PSP = 0x1000`), used for concrete evaluations. -/
def zeroMachine : Machine := ⟨fun _ => 0, 0, 4096, 0, [], []⟩

/-- A machine whose parameter stack holds dividend 7 at `PSP - 4` and
divisor 2 at `PSP - 2`. -/
def divmodEx1 : Machine :=
  ⟨fun a => if a = 4092 then 7 else if a = 4094 then 2 else 0, 0, 4096, 0, [], []⟩

/-- A machine whose parameter stack holds dividend −7 (bytes
`0xF9 0xFF`) at `PSP - 4` and divisor 2 at `PSP - 2`. -/
def divmodEx2 : Machine :=
  ⟨fun a => if a = 4092 then 249 else if a = 4093 then 255 else
    if a = 4094 then 2 else 0, 0, 4096, 0, [], []⟩

/-- A machine that has just consumed a branch opcode cell at address
8192, so `IP = 8194`, with offset cell 10 at 8194. -/
def branchEx : Machine :=
  ⟨fun a => if a = 8194 then 10 else 0, 8194, 4096, 0, [], []⟩

theorem read8_lt (s : Machine) (a : Nat) : read8 s a < 256 :=
  Nat.mod_lt _ (by omega)

theorem read16_lt (s : Machine) (a : Nat) : read16 s a < 65536 := by
  have h1 := read8_lt s a
  have h2 := read8_lt s (a + 1)
  unfold read16
  omega

theorem read8_write8 (s : Machine) (a v b : Nat) :
    read8 (write8 s a v) b =
      if b % 65536 = a % 65536 then v % 256 else read8 s b := by
  by_cases h : b % 65536 = a % 65536 <;> simp [read8, write8, h]

theorem read8_updPSP (s : Machine) (p b : Nat) :
    read8 { s with PSP := p } b = read8 s b := rfl

theorem read8_updIP (s : Machine) (i b : Nat) :
    read8 { s with IP := i } b = read8 s b := rfl

theorem read8_updRSP (s : Machine) (r b : Nat) :
    read8 { s with RSP := r } b = read8 s b := rfl

theorem read16_updPSP (s : Machine) (p b : Nat) :
    read16 { s with PSP := p } b = read16 s b := rfl

theorem read16_updIP (s : Machine) (i b : Nat) :
    read16 { s with IP := i } b = read16 s b := rfl

theorem read16_updRSP (s : Machine) (r b : Nat) :
    read16 { s with RSP := r } b = read16 s b := rfl

theorem read8_mk (f : Nat → Nat) (i p r : Nat) (ii oo : List Nat) (b : Nat) :
    read8 (Machine.mk f i p r ii oo) b = f (b % 65536) % 256 := rfl

theorem read16_mk (f : Nat → Nat) (i p r : Nat) (ii oo : List Nat) (b : Nat) :
    read16 (Machine.mk f i p r ii oo) b
      = f (b % 65536) % 256 + 256 * (f ((b + 1) % 65536) % 256) := rfl

theorem read16_write16_same (s : Machine) (a b v : Nat)
    (h : b % 65536 = a % 65536) :
    read16 (write16 s a v) b = v % 65536 := by
  have h1 : ¬ b % 65536 = (a + 1) % 65536 := by omega
  have h2 : (b + 1) % 65536 = (a + 1) % 65536 := by omega
  simp only [read16, write16, read8_write8]
  rw [if_neg h1, if_pos h, if_pos h2]
  omega

theorem read16_write16_of_ne (s : Machine) (a b v : Nat)
    (h1 : ¬ b % 65536 = a % 65536) (h2 : ¬ b % 65536 = (a + 1) % 65536)
    (h3 : ¬ (b + 1) % 65536 = a % 65536)
    (h4 : ¬ (b + 1) % 65536 = (a + 1) % 65536) :
    read16 (write16 s a v) b = read16 s b := by
  simp only [read16, write16, read8_write8, h1, h2, h3, h4, if_neg,
    not_false_iff]

theorem read8_write16_of_ne (s : Machine) (a b v : Nat)
    (h1 : ¬ b % 65536 = a % 65536) (h2 : ¬ b % 65536 = (a + 1) % 65536) :
    read8 (write16 s a v) b = read8 s b := by
  simp only [write16, read8_write8, h1, h2, if_neg, not_false_iff]

theorem read16_write8_of_ne (s : Machine) (a b v : Nat)
    (h1 : ¬ b % 65536 = a % 65536) (h2 : ¬ (b + 1) % 65536 = a % 65536) :
    read16 (write8 s a v) b = read16 s b := by
  simp only [read16, read8_write8, h1, h2, if_neg, not_false_iff]

theorem read8_congr (s : Machine) (b c : Nat) (h : b % 65536 = c % 65536) :
    read8 s b = read8 s c := by
  unfold read8
  rw [h]

theorem read16_congr (s : Machine) (b c : Nat) (h : b % 65536 = c % 65536) :
    read16 s b = read16 s c := by
  unfold read16
  rw [read8_congr s b c h, read8_congr s (b + 1) (c + 1) (by omega)]

theorem write8_PSP (s : Machine) (a v : Nat) : (write8 s a v).PSP = s.PSP := rfl

theorem write8_IP (s : Machine) (a v : Nat) : (write8 s a v).IP = s.IP := rfl

theorem write8_RSP (s : Machine) (a v : Nat) : (write8 s a v).RSP = s.RSP := rfl

theorem write16_PSP (s : Machine) (a v : Nat) : (write16 s a v).PSP = s.PSP := rfl

theorem write16_IP (s : Machine) (a v : Nat) : (write16 s a v).IP = s.IP := rfl

theorem write16_RSP (s : Machine) (a v : Nat) : (write16 s a v).RSP = s.RSP := rfl

theorem PPop_snd (s : Machine) :
    (PStack_Pop16 s).snd = { s with PSP := (s.PSP + 65534) % 65536 } := rfl

theorem PPop_fst (s : Machine) :
    (PStack_Pop16 s).fst
      = read16 s ((s.PSP + 65534) % 65536 + (s.PSP + 65534) % 65536) := rfl

theorem signExt8_lt (b : Nat) : signExt8 b < 65536 := by
  unfold signExt8
  split_ifs <;> omega

theorem signExt8_mod256 (b : Nat) : signExt8 (b % 256) = signExt8 b := by
  unfold signExt8
  split_ifs <;> omega

theorem toInt16_signExt8 (b : Nat) : toInt16 (signExt8 b) = toInt8 b := by
  unfold toInt16 signExt8 toInt8
  split_ifs <;> omega

theorem fromInt16_lt (i : Int) : fromInt16 i < 65536 := by
  unfold fromInt16
  omega

theorem toInt16_fromInt16 (i : Int) (h1 : -32768 ≤ i) (h2 : i < 32768) :
    toInt16 (fromInt16 i) = i := by
  unfold toInt16 fromInt16
  split_ifs <;> omega

theorem toInt16_range (n : Nat) : -32768 ≤ toInt16 n ∧ toInt16 n < 32768 := by
  unfold toInt16
  split_ifs <;> omega

theorem tmod_neg_left (x y : Int) : Int.tmod (-x) y = -(Int.tmod x y) := by
  rw [Int.tmod_def, Int.tmod_def, Int.neg_tdiv]
  ring

theorem tmod_range (x y : Int) (hy : ¬ y = 0) (hy1 : -32768 ≤ y) (hy2 : y < 32768) :
    -32768 < Int.tmod x y ∧ Int.tmod x y < 32768 := by
  have key : ∀ a b : Int, 0 < b → b ≤ 32768 →
      -32768 < Int.tmod a b ∧ Int.tmod a b < 32768 := by
    intro a b hb hb2
    have hup : Int.tmod a b < b := Int.tmod_lt_of_pos a hb
    by_cases ha : 0 ≤ a
    · have hlo : 0 ≤ Int.tmod a b := Int.tmod_nonneg b ha
      omega
    · have h1 : Int.tmod (-(-a)) b = -(Int.tmod (-a) b) := tmod_neg_left (-a) b
      rw [neg_neg] at h1
      have hlo2 : 0 ≤ Int.tmod (-a) b := Int.tmod_nonneg b (by omega)
      have hup2 : Int.tmod (-a) b < b := Int.tmod_lt_of_pos (-a) hb
      omega
  by_cases hpos : 0 < y
  · exact key x y hpos (by omega)
  · have h := key x (-y) (by omega) (by omega)
    rw [Int.tmod_neg] at h
    exact h

theorem tdiv_range (x y : Int) (hy : ¬ y = 0) (hx1 : -32768 ≤ x) (hx2 : x < 32768)
    (hy1 : -32768 ≤ y) (hy2 : y < 32768) (hq : ¬ (x = -32768 ∧ y = -1)) :
    -32768 ≤ Int.tdiv x y ∧ Int.tdiv x y < 32768 := by
  have hna : (Int.tdiv x y).natAbs = x.natAbs / y.natAbs := Int.natAbs_tdiv x y
  by_cases hx : x = -32768
  · by_cases hyo : y = 1
    · subst hx
      subst hyo
      rw [Int.tdiv_one]
      omega
    · have hym1 : ¬ y = -1 := fun h => hq ⟨hx, h⟩
      have hy2' : 2 ≤ y.natAbs := by omega
      have hdle : x.natAbs / y.natAbs ≤ 32768 / 2 := by
        have h32 : x.natAbs = 32768 := by omega
        rw [h32]
        exact Nat.div_le_div_left hy2' (by omega)
      omega
  · have hxa : x.natAbs ≤ 32767 := by omega
    have hdle : x.natAbs / y.natAbs ≤ x.natAbs := Nat.div_le_self _ _
    omega

theorem PPush_PSP (s : Machine) (v : Nat) :
    (PStack_Push16 s v).PSP = (s.PSP + 2) % 65536 := rfl

theorem PPush_IP (s : Machine) (v : Nat) :
    (PStack_Push16 s v).IP = s.IP := rfl

theorem PPush_RSP (s : Machine) (v : Nat) :
    (PStack_Push16 s v).RSP = s.RSP := rfl

theorem PPush_read16_same (s : Machine) (v : Nat) :
    read16 (PStack_Push16 s v) (s.PSP + s.PSP) = v % 65536 := by
  unfold PStack_Push16
  rw [read16_updPSP]
  exact read16_write16_same _ _ _ _ rfl

theorem PPush_read8_of_ne (s : Machine) (v b : Nat)
    (h1 : ¬ b % 65536 = (s.PSP + s.PSP) % 65536)
    (h2 : ¬ b % 65536 = (s.PSP + s.PSP + 1) % 65536) :
    read8 (PStack_Push16 s v) b = read8 s b := by
  unfold PStack_Push16
  rw [read8_updPSP]
  exact read8_write16_of_ne _ _ _ _ h1 h2

theorem PPush_read16_of_ne (s : Machine) (v b : Nat)
    (h1 : ¬ b % 65536 = (s.PSP + s.PSP) % 65536)
    (h2 : ¬ b % 65536 = (s.PSP + s.PSP + 1) % 65536)
    (h3 : ¬ (b + 1) % 65536 = (s.PSP + s.PSP) % 65536)
    (h4 : ¬ (b + 1) % 65536 = (s.PSP + s.PSP + 1) % 65536) :
    read16 (PStack_Push16 s v) b = read16 s b := by
  unfold PStack_Push16
  rw [read16_updPSP]
  exact read16_write16_of_ne _ _ _ _ h1 h2 h3 h4

theorem PPop_PPush_fst (s : Machine) (v : Nat) :
    (PStack_Pop16 (PStack_Push16 s v)).fst = v % 65536 := by
  unfold PStack_Pop16 PStack_Push16
  dsimp only
  rw [read16_updPSP]
  apply read16_write16_same
  omega

theorem PPop_PPush_PSP (s : Machine) (v : Nat) :
    (PStack_Pop16 (PStack_Push16 s v)).snd.PSP = s.PSP % 65536 := by
  unfold PStack_Pop16 PStack_Push16
  dsimp only
  omega

theorem RPush_RSP (s : Machine) (v : Nat) :
    (RStack_Push16 s v).RSP = (s.RSP + 2) % 65536 := rfl

theorem RPush_read16_same (s : Machine) (v : Nat) :
    read16 (RStack_Push16 s v) (s.RSP + s.RSP) = v % 65536 := by
  unfold RStack_Push16
  rw [read16_updRSP]
  exact read16_write16_same _ _ _ _ rfl

theorem RPush_read8_of_ne (s : Machine) (v b : Nat)
    (h1 : ¬ b % 65536 = (s.RSP + s.RSP) % 65536)
    (h2 : ¬ b % 65536 = (s.RSP + s.RSP + 1) % 65536) :
    read8 (RStack_Push16 s v) b = read8 s b := by
  unfold RStack_Push16
  rw [read8_updRSP]
  exact read8_write16_of_ne _ _ _ _ h1 h2

theorem RPush_read16_of_ne (s : Machine) (v b : Nat)
    (h1 : ¬ b % 65536 = (s.RSP + s.RSP) % 65536)
    (h2 : ¬ b % 65536 = (s.RSP + s.RSP + 1) % 65536)
    (h3 : ¬ (b + 1) % 65536 = (s.RSP + s.RSP) % 65536)
    (h4 : ¬ (b + 1) % 65536 = (s.RSP + s.RSP + 1) % 65536) :
    read16 (RStack_Push16 s v) b = read16 s b := by
  unfold RStack_Push16
  rw [read16_updRSP]
  exact read16_write16_of_ne _ _ _ _ h1 h2 h3 h4

theorem RPop_RPush_fst (s : Machine) (v : Nat) :
    (RStack_Pop16 (RStack_Push16 s v)).fst = v % 65536 := by
  unfold RStack_Pop16 RStack_Push16
  dsimp only
  rw [read16_updRSP]
  apply read16_write16_same
  omega

theorem RPop_RPush_RSP (s : Machine) (v : Nat) :
    (RStack_Pop16 (RStack_Push16 s v)).snd.RSP = s.RSP % 65536 := by
  unfold RStack_Pop16 RStack_Push16
  dsimp only
  omega

/-- C1: every cycle of the dispatch loop is exactly: read the 16-bit
`target` at `IP`, advance `IP` by 2 (leaving memory, the stack
pointers and the streams untouched), read the 16-bit `opcode` at
`target`, and invoke the primitive at index `opcode` of the table on
the advanced state, with no further state change in the loop itself. -/
theorem dispatch_cycle (s : Machine) :
    step s =
      execPrim (read16 { s with IP := (s.IP + 2) % 65536 } (read16 s s.IP))
        { s with IP := (s.IP + 2) % 65536 } ∧
    { s with IP := (s.IP + 2) % 65536 } =
      Machine.mk s.mem ((s.IP + 2) % 65536) s.PSP s.RSP s.inp s.out :=
  ⟨rfl, rfl⟩

/-- C10: a 16-bit push on either stack stores its value at the doubled
stack-pointer address `p + p` (modulo 2^16) — leaving every byte
outside that cell, in particular the cell at `p` itself when disjoint,
unchanged — and then advances the pointer by 2; a pop first decrements
the pointer and reads the decremented pointer doubled the same way, so
an immediate pop returns the value just pushed and restores the
pointer. -/
theorem push_doubles_stack_pointer (s : Machine) (v : Nat) (hv : v < 65536) :
    (read16 (PStack_Push16 s v) (s.PSP + s.PSP) = v ∧
     (∀ b, ¬ b % 65536 = (s.PSP + s.PSP) % 65536 →
        ¬ b % 65536 = (s.PSP + s.PSP + 1) % 65536 →
        read8 (PStack_Push16 s v) b = read8 s b) ∧
     (PStack_Push16 s v).PSP = (s.PSP + 2) % 65536 ∧
     (PStack_Pop16 s).snd.PSP = (s.PSP + 65534) % 65536 ∧
     (PStack_Pop16 s).fst =
       read16 s ((s.PSP + 65534) % 65536 + (s.PSP + 65534) % 65536) ∧
     (PStack_Pop16 (PStack_Push16 s v)).fst = v ∧
     (PStack_Pop16 (PStack_Push16 s v)).snd.PSP = s.PSP % 65536) ∧
    (read16 (RStack_Push16 s v) (s.RSP + s.RSP) = v ∧
     (∀ b, ¬ b % 65536 = (s.RSP + s.RSP) % 65536 →
        ¬ b % 65536 = (s.RSP + s.RSP + 1) % 65536 →
        read8 (RStack_Push16 s v) b = read8 s b) ∧
     (RStack_Push16 s v).RSP = (s.RSP + 2) % 65536 ∧
     (RStack_Pop16 s).snd.RSP = (s.RSP + 65534) % 65536 ∧
     (RStack_Pop16 s).fst =
       read16 s ((s.RSP + 65534) % 65536 + (s.RSP + 65534) % 65536) ∧
     (RStack_Pop16 (RStack_Push16 s v)).fst = v ∧
     (RStack_Pop16 (RStack_Push16 s v)).snd.RSP = s.RSP % 65536) := by
  have hp := PPush_read16_same s v
  have hpp := PPop_PPush_fst s v
  have hr := RPush_read16_same s v
  have hrp := RPop_RPush_fst s v
  rw [Nat.mod_eq_of_lt hv] at hp hpp hr hrp
  refine ⟨⟨hp, ?_, rfl, rfl, rfl, hpp, PPop_PPush_PSP s v⟩,
    ⟨hr, ?_, rfl, rfl, rfl, hrp, RPop_RPush_RSP s v⟩⟩
  · intro b h1 h2
    exact PPush_read8_of_ne s v b h1 h2
  · intro b h1 h2
    exact RPush_read8_of_ne s v b h1 h2

/-- Witness for C10 at the concrete machine `zeroMachine` (stack
pointer 4096) and value 7: the pushed cell lands at 8192, address 4096
itself is untouched, and an immediate pop returns 7. -/
theorem push_doubles_stack_pointer_witness :
    (7 : Nat) < 65536 ∧
    read16 (PStack_Push16 zeroMachine 7) (4096 + 4096) = 7 ∧
    read8 (PStack_Push16 zeroMachine 7) 4096 = read8 zeroMachine 4096 ∧
    (PStack_Pop16 (PStack_Push16 zeroMachine 7)).fst = 7 := by
  have h := push_doubles_stack_pointer zeroMachine 7 (by omega)
  exact ⟨by omega, h.1.1, h.1.2.1 4096 (by decide) (by decide),
    h.1.2.2.2.2.2.1⟩

/-- C3 is falsified by the code (code bug): on the all-zero machine
with `PSP = 4096`, pushing 7 and executing `DUP` leaves pops yielding
0 and then 7 — not 7 and 7 — because `PStack_Push` stores at the
doubled address `2*PSP` while `DUP` reads the plain address `PSP - 2`.
This theorem evaluates the code at that failing input. -/
theorem dup_after_push_eval :
    (PStack_Pop16 (DUP (PStack_Push16 zeroMachine 7))).fst = 0 ∧
    (PStack_Pop16
      (PStack_Pop16 (DUP (PStack_Push16 zeroMachine 7))).snd).fst = 7 ∧
    (PStack_Pop16
      (PStack_Pop16 (DUP (PStack_Push16 zeroMachine 7))).snd).snd.PSP
      = 4096 ∧
    (0 : Nat) ≠ 7 := by decide

/-- C4 is falsified by the code (code bug): in `DOVAR` the pushed
expression `Mem<uint16_t>(IP - 2) + 2` has C++ type `int`, so the
templated push writes four bytes and advances `PSP` by 4, not 2.
Evaluated on the all-zero machine: `PSP` goes from 4096 to 4100 and
the four bytes 2,0,0,0 land at the doubled address 8192; `IP` is
unchanged. -/
theorem dovar_four_byte_push_eval :
    (DOVAR zeroMachine).PSP = 4100 ∧
    ¬ (DOVAR zeroMachine).PSP = (zeroMachine.PSP + 2) % 65536 ∧
    read8 (DOVAR zeroMachine) 8192 = 2 ∧
    read8 (DOVAR zeroMachine) 8193 = 0 ∧
    read8 (DOVAR zeroMachine) 8194 = 0 ∧
    read8 (DOVAR zeroMachine) 8195 = 0 ∧
    (DOVAR zeroMachine).IP = zeroMachine.IP := by decide

/-- C9 is falsified by the code (code bug): on the all-zero machine,
pushing 32767 then 1 and executing the add primitive leaves the
popped top equal to 32767 (the pushed operand, untouched at its
doubled address 8192) instead of the claimed wrapped sum −32768; the
popped 1 was instead added into the cell at the plain address
`PSP - 2 = 4096`. -/
theorem add_misses_stack_top_eval :
    (PStack_Pop16 (ADD (PStack_Push16 (PStack_Push16 zeroMachine 32767) 1))).fst
      = 32767 ∧
    ¬ toInt16 ((PStack_Pop16
        (ADD (PStack_Push16 (PStack_Push16 zeroMachine 32767) 1))).fst)
      = -32768 ∧
    read16 (ADD (PStack_Push16 (PStack_Push16 zeroMachine 32767) 1)) 4096
      = 1 := by decide

/-- C5: `DOCON` pushes exactly one 16-bit cell — the body cell at
`target + 2`, where `target = Mem<uint16_t>(IP - 2)` — advancing `PSP`
by exactly 2 (modulo 2^16) and leaving `IP` and `RSP` unchanged; an
immediate pop returns that body cell and restores `PSP`.  `DOVAR`, the
other non-colon body primitive, also leaves `IP` unchanged, so among
the three body-kind primitives only `DOCOL` mutates `IP`. -/
theorem docon_pushes_body_cell (s : Machine) :
    (DOCON s).IP = s.IP ∧
    (DOCON s).RSP = s.RSP ∧
    (DOCON s).PSP = (s.PSP + 2) % 65536 ∧
    read16 (DOCON s) (s.PSP + s.PSP)
      = read16 s (read16 s ((s.IP + 65534) % 65536) + 2) ∧
    (PStack_Pop16 (DOCON s)).fst
      = read16 s (read16 s ((s.IP + 65534) % 65536) + 2) ∧
    (PStack_Pop16 (DOCON s)).snd.PSP = s.PSP % 65536 ∧
    (DOVAR s).IP = s.IP := by
  refine ⟨rfl, rfl, rfl, ?_, ?_, ?_, rfl⟩
  · have h := PPush_read16_same s (read16 s (read16 s ((s.IP + 65534) % 65536) + 2))
    rw [Nat.mod_eq_of_lt (read16_lt s _)] at h
    exact h
  · have h := PPop_PPush_fst s (read16 s (read16 s ((s.IP + 65534) % 65536) + 2))
    rw [Nat.mod_eq_of_lt (read16_lt s _)] at h
    exact h
  · exact PPop_PPush_PSP s _

/-- C7: with the branch opcode cell at address `A` just consumed
(`IP = A + 2`) and the offset cell at `A + 2` holding the signed value
`V = toInt16 (read16 s (A + 2))`: `BRANCH` sets `IP` to `(A + 2) + V`
(modulo 2^16); `ZBRANCH` pops one parameter-stack cell without touching
memory, performs the same branch when the popped cell is zero, and sets
`IP = A + 4` otherwise. -/
theorem branch_offset_convention (s : Machine) (A : Nat)
    (hA : A + 4 < 65536) (hIP : s.IP = A + 2) :
    ((BRANCH s).IP = (A + 2 + read16 s (A + 2)) % 65536 ∧
     ((BRANCH s).IP : Int)
       = ((A : Int) + 2 + toInt16 (read16 s (A + 2))) % 65536) ∧
    ((ZBRANCH s).mem = s.mem ∧
     (ZBRANCH s).RSP = s.RSP ∧
     (ZBRANCH s).PSP = (s.PSP + 65534) % 65536 ∧
     ((PStack_Pop16 s).fst = 0 →
        (ZBRANCH s).IP = (A + 2 + read16 s (A + 2)) % 65536 ∧
        ((ZBRANCH s).IP : Int)
          = ((A : Int) + 2 + toInt16 (read16 s (A + 2))) % 65536) ∧
     (¬ (PStack_Pop16 s).fst = 0 → (ZBRANCH s).IP = A + 4)) := by
  obtain ⟨m, ip, p, r, ii, oo⟩ := s
  replace hIP : ip = A + 2 := hIP
  subst hIP
  have hw := read16_lt (Machine.mk m (A + 2) p r ii oo) (A + 2)
  have hcast :
      (((A + 2 + read16 (Machine.mk m (A + 2) p r ii oo) (A + 2)) % 65536 : Nat) : Int)
        = ((A : Int) + 2
            + toInt16 (read16 (Machine.mk m (A + 2) p r ii oo) (A + 2))) % 65536 := by
    unfold toInt16
    rw [Nat.mod_eq_of_lt hw]
    split_ifs <;> omega
  refine ⟨⟨rfl, hcast⟩, ?_, ?_, ?_, ?_, ?_⟩
  · simp only [ZBRANCH]
    split <;> rfl
  · simp only [ZBRANCH]
    split <;> rfl
  · simp only [ZBRANCH]
    split <;> rfl
  · intro hz
    simp only [ZBRANCH]
    rw [if_pos hz]
    simp only [PStack_Pop16, read16_mk]
    simp only [read16_mk] at hcast
    exact ⟨trivial, hcast⟩
  · intro hz
    simp only [ZBRANCH]
    rw [if_neg hz]
    simp only [PStack_Pop16]
    omega

/-- Witness for C7 on `branchEx` (`A = 8192`, offset cell 10, empty
parameter stack so the popped cell is 0): `BRANCH` and the zero-taken
`ZBRANCH` both set `IP` to 8204. -/
theorem branch_offset_convention_witness :
    8192 + 4 < 65536 ∧ branchEx.IP = 8192 + 2 ∧
    (BRANCH branchEx).IP = 8204 ∧ (ZBRANCH branchEx).IP = 8204 := by
  have h := branch_offset_convention branchEx 8192 (by omega) (by decide)
  refine ⟨by omega, by decide, ?_, ?_⟩
  · rw [h.1.1]
    decide
  · rw [(h.2.2.2.2.1 (by decide)).1]
    decide

/-- C2: `DOCOL` pushes the pre-call `IP` onto the return stack
(advancing `RSP` by 2, the pushed cell readable at the doubled return
stack pointer) and sets `IP = target + 2` with
`target = Mem<uint16_t>(IP - 2)` (read from the pre-push memory under
the disjointness hypotheses); and for every state `t` whose `RSP` and
saved return-stack cell agree with the post-`DOCOL` state — i.e. after
any intermediate activity whose return-stack pushes and pops match —
dispatching `EXIT` restores `IP` to the pre-call value and `RSP` to its
pre-call value: the return stack is a LIFO call stack. -/
theorem docol_exit_lifo (s : Machine)
    (hIP : s.IP < 65536) (hRSP : s.RSP < 65536)
    (h1 : ¬ (s.IP + 65534) % 65536 = (s.RSP + s.RSP) % 65536)
    (h2 : ¬ (s.IP + 65534) % 65536 = (s.RSP + s.RSP + 1) % 65536)
    (h3 : ¬ (s.IP + 65535) % 65536 = (s.RSP + s.RSP) % 65536)
    (h4 : ¬ (s.IP + 65535) % 65536 = (s.RSP + s.RSP + 1) % 65536) :
    (DOCOL s).RSP = (s.RSP + 2) % 65536 ∧
    read16 (DOCOL s) (s.RSP + s.RSP) = s.IP ∧
    (DOCOL s).IP = (read16 s ((s.IP + 65534) % 65536) + 2) % 65536 ∧
    (∀ t : Machine, t.RSP % 65536 = (s.RSP + 2) % 65536 →
       read16 t (s.RSP + s.RSP) = s.IP →
       (EXIT t).IP = s.IP ∧ (EXIT t).RSP = s.RSP) := by
  refine ⟨rfl, ?_, ?_, ?_⟩
  · simp only [DOCOL, read16_updIP]
    rw [RPush_read16_same s s.IP, Nat.mod_eq_of_lt hIP]
  · simp only [DOCOL]
    rw [RPush_read16_of_ne s s.IP ((s.IP + 65534) % 65536) (by omega) (by omega)
      (by omega) (by omega)]
  · intro t ht1 ht2
    have hR : (t.RSP + 65534) % 65536 = s.RSP := by omega
    constructor
    · simp only [EXIT, RStack_Pop16]
      rw [hR]
      exact ht2
    · simp only [EXIT, RStack_Pop16]
      exact hR

/-- Witness for C2 on `zeroMachine` (`IP = 0`, `RSP = 0`): `DOCOL`
followed immediately by `EXIT` restores `IP = 0` and `RSP = 0`. -/
theorem docol_exit_lifo_witness :
    zeroMachine.IP < 65536 ∧ zeroMachine.RSP < 65536 ∧
    (EXIT (DOCOL zeroMachine)).IP = zeroMachine.IP ∧
    (EXIT (DOCOL zeroMachine)).RSP = zeroMachine.RSP := by
  have h := docol_exit_lifo zeroMachine (by decide) (by decide) (by decide)
    (by decide) (by decide) (by decide)
  have hd := h.2.2.2 (DOCOL zeroMachine) (by decide) (by decide)
  exact ⟨by decide, by decide, hd.1, hd.2⟩

/-- C6: with signed 16-bit dividend `x` at `PSP - 4` and nonzero signed
divisor `y` at `PSP - 2`, `DIVMOD` leaves the remainder `x tmod y`
(truncating division: quotient toward zero, remainder with the
dividend's sign) at `PSP - 4` and the quotient `x tdiv y` at `PSP - 2`
— the quotient stored with `int16_t` wraparound, hence equal to
`x tdiv y` as a signed value except at the single overflow pair
`x = -32768, y = -1` — with `PSP`, `IP` and `RSP` unchanged. -/
theorem divmod_truncating (s : Machine)
    (h4 : 4 ≤ s.PSP) (hlt : s.PSP < 65536)
    (hy : ¬ toInt16 (read16 s (s.PSP - 2)) = 0) :
    (DIVMOD s).PSP = s.PSP ∧
    (DIVMOD s).IP = s.IP ∧
    (DIVMOD s).RSP = s.RSP ∧
    toInt16 (read16 (DIVMOD s) (s.PSP - 4))
      = Int.tmod (toInt16 (read16 s (s.PSP - 4)))
          (toInt16 (read16 s (s.PSP - 2))) ∧
    read16 (DIVMOD s) (s.PSP - 2)
      = fromInt16 (Int.tdiv (toInt16 (read16 s (s.PSP - 4)))
          (toInt16 (read16 s (s.PSP - 2)))) ∧
    (¬ (toInt16 (read16 s (s.PSP - 4)) = -32768 ∧
        toInt16 (read16 s (s.PSP - 2)) = -1) →
      toInt16 (read16 (DIVMOD s) (s.PSP - 2))
        = Int.tdiv (toInt16 (read16 s (s.PSP - 4)))
            (toInt16 (read16 s (s.PSP - 2)))) := by
  have e4 : (s.PSP + 65532) % 65536 = s.PSP - 4 := by omega
  have e2 : (s.PSP + 65534) % 65536 = s.PSP - 2 := by omega
  have hxr := toInt16_range (read16 s (s.PSP - 4))
  have hyr := toInt16_range (read16 s (s.PSP - 2))
  have hmodrange := tmod_range (toInt16 (read16 s (s.PSP - 4)))
    (toInt16 (read16 s (s.PSP - 2))) hy hyr.1 hyr.2
  have hrem : read16 (DIVMOD s) (s.PSP - 4)
      = fromInt16 (Int.tmod (toInt16 (read16 s (s.PSP - 4)))
          (toInt16 (read16 s (s.PSP - 2)))) := by
    simp only [DIVMOD]
    rw [e4, e2]
    rw [read16_write16_of_ne _ (s.PSP - 2) (s.PSP - 4) _ (by omega) (by omega)
      (by omega) (by omega)]
    rw [read16_write16_same _ (s.PSP - 4) (s.PSP - 4) _ rfl]
    exact Nat.mod_eq_of_lt (fromInt16_lt _)
  have hquot : read16 (DIVMOD s) (s.PSP - 2)
      = fromInt16 (Int.tdiv (toInt16 (read16 s (s.PSP - 4)))
          (toInt16 (read16 s (s.PSP - 2)))) := by
    simp only [DIVMOD]
    rw [e4, e2]
    rw [read16_write16_same _ (s.PSP - 2) (s.PSP - 2) _ rfl]
    exact Nat.mod_eq_of_lt (fromInt16_lt _)
  refine ⟨rfl, rfl, rfl, ?_, hquot, ?_⟩
  · rw [hrem]
    exact toInt16_fromInt16 _ (by omega) (by omega)
  · intro hq
    rw [hquot]
    have hdr := tdiv_range (toInt16 (read16 s (s.PSP - 4)))
      (toInt16 (read16 s (s.PSP - 2))) hy hxr.1 hxr.2 hyr.1 hyr.2 hq
    exact toInt16_fromInt16 _ hdr.1 hdr.2

/-- Witness for C6: on `divmodEx1` (cells 7 and 2) the remainder cell
becomes 1 and the quotient cell 3; on `divmodEx2` (cells −7 and 2)
they become −1 and −3 — truncation toward zero, remainder with the
dividend's sign. -/
theorem divmod_truncating_witness :
    4 ≤ divmodEx1.PSP ∧ divmodEx1.PSP < 65536 ∧
    ¬ toInt16 (read16 divmodEx1 (divmodEx1.PSP - 2)) = 0 ∧
    toInt16 (read16 (DIVMOD divmodEx1) (divmodEx1.PSP - 4)) = 1 ∧
    toInt16 (read16 (DIVMOD divmodEx1) (divmodEx1.PSP - 2)) = 3 ∧
    toInt16 (read16 (DIVMOD divmodEx2) (divmodEx2.PSP - 4)) = -1 ∧
    toInt16 (read16 (DIVMOD divmodEx2) (divmodEx2.PSP - 2)) = -3 := by
  have ha := divmod_truncating divmodEx1 (by decide) (by decide) (by decide)
  have hb := divmod_truncating divmodEx2 (by decide) (by decide) (by decide)
  refine ⟨by decide, by decide, by decide, ?_, ?_, ?_, ?_⟩
  · rw [ha.2.2.2.1]
    decide
  · rw [ha.2.2.2.2.2 (by decide)]
    decide
  · rw [hb.2.2.2.1]
    decide
  · rw [hb.2.2.2.2.2 (by decide)]
    decide

/-- C8: with value `x` and address `a` pushed on the parameter stack
(and `a` not aliasing the stack cell the pushes use), `STOREBYTE`
(`C!`) writes the low byte of `x` to `Memory[a]` and restores `PSP`;
a subsequent `FETCHBYTE` (`C@`) of `a` pushes the sign-extension of
that byte as a full 16-bit cell (`signExt8 x`, whose signed value is
`toInt8 x`), advancing `PSP` by 2.  In particular (second conjunct)
storing byte 0xFF and byte-fetching it yields the cell value −1,
not 255. -/
theorem byte_store_fetch_sign_extend :
    (∀ (s : Machine) (a x : Nat), a < 65536 → x < 65536 → s.PSP < 65536 →
      ¬ a = (s.PSP + s.PSP) % 65536 → ¬ a = (s.PSP + s.PSP + 1) % 65536 →
      read8 (STOREBYTE (PStack_Push16 (PStack_Push16 s x) a)) a = x % 256 ∧
      (STOREBYTE (PStack_Push16 (PStack_Push16 s x) a)).PSP = s.PSP ∧
      read16 (FETCHBYTE (PStack_Push16
          (STOREBYTE (PStack_Push16 (PStack_Push16 s x) a)) a))
        (s.PSP + s.PSP) = signExt8 x ∧
      toInt16 (read16 (FETCHBYTE (PStack_Push16
          (STOREBYTE (PStack_Push16 (PStack_Push16 s x) a)) a))
        (s.PSP + s.PSP)) = toInt8 x ∧
      (PStack_Pop16 (FETCHBYTE (PStack_Push16
          (STOREBYTE (PStack_Push16 (PStack_Push16 s x) a)) a))).fst
        = signExt8 x ∧
      (FETCHBYTE (PStack_Push16
          (STOREBYTE (PStack_Push16 (PStack_Push16 s x) a)) a)).PSP
        = (s.PSP + 2) % 65536) ∧
    toInt16 ((PStack_Pop16 (FETCHBYTE (PStack_Push16
      (STOREBYTE (PStack_Push16 (PStack_Push16 zeroMachine 255) 12288))
      12288))).fst) = -1 := by
  constructor
  · intro s a x ha hx hp h6 h7
    have hA1 : (PStack_Pop16 (PStack_Push16 (PStack_Push16 s x) a)).fst = a := by
      rw [PPop_PPush_fst]
      omega
    have hpp := PPush_PSP s x
    have c1 : ¬ (s.PSP + s.PSP) % 65536
        = ((PStack_Push16 s x).PSP + (PStack_Push16 s x).PSP) % 65536 := by
      rw [hpp]
      omega
    have c2 : ¬ (s.PSP + s.PSP) % 65536
        = ((PStack_Push16 s x).PSP + (PStack_Push16 s x).PSP + 1) % 65536 := by
      rw [hpp]
      omega
    have c3 : ¬ (s.PSP + s.PSP + 1) % 65536
        = ((PStack_Push16 s x).PSP + (PStack_Push16 s x).PSP) % 65536 := by
      rw [hpp]
      omega
    have c4 : ¬ (s.PSP + s.PSP + 1) % 65536
        = ((PStack_Push16 s x).PSP + (PStack_Push16 s x).PSP + 1) % 65536 := by
      rw [hpp]
      omega
    have key : ∀ b : Nat, b % 65536 = (s.PSP + s.PSP) % 65536 →
        read16 (PStack_Push16 (PStack_Push16 s x) a) b = x := by
      intro b hb
      rw [read16_congr _ b (s.PSP + s.PSP) hb,
        PPush_read16_of_ne (PStack_Push16 s x) a (s.PSP + s.PSP) c1 c2 c3 c4,
        PPush_read16_same s x]
      omega
    have hq : (PStack_Push16 (PStack_Push16 s x) a).PSP = (s.PSP + 4) % 65536 := by
      simp only [PPush_PSP]
      omega
    have hA2 : (PStack_Pop16
        (PStack_Pop16 (PStack_Push16 (PStack_Push16 s x) a)).snd).fst = x := by
      rw [PPop_snd, PPop_fst]
      dsimp only
      rw [read16_updPSP, hq]
      apply key
      omega
    have hst1 : read8 (STOREBYTE (PStack_Push16 (PStack_Push16 s x) a)) a
        = x % 256 := by
      simp only [STOREBYTE]
      rw [hA1, hA2, read8_write8, if_pos rfl]
      omega
    have hst2 : (STOREBYTE (PStack_Push16 (PStack_Push16 s x) a)).PSP
        = s.PSP := by
      simp only [STOREBYTE, write8_PSP, PPop_snd, PPush_PSP]
      omega
    have hB1 : (PStack_Pop16 (PStack_Push16
        (STOREBYTE (PStack_Push16 (PStack_Push16 s x) a)) a)).fst = a := by
      rw [PPop_PPush_fst]
      omega
    have hbyte : read8 (PStack_Pop16 (PStack_Push16
        (STOREBYTE (PStack_Push16 (PStack_Push16 s x) a)) a)).snd a
        = x % 256 := by
      rw [PPop_snd, read8_updPSP]
      rw [PPush_read8_of_ne (STOREBYTE (PStack_Push16 (PStack_Push16 s x) a))
        a a (by
          rw [hst2]
          omega) (by
          rw [hst2]
          omega)]
      exact hst1
    have hm3psp : (PStack_Pop16 (PStack_Push16
        (STOREBYTE (PStack_Push16 (PStack_Push16 s x) a)) a)).snd.PSP
        = s.PSP := by
      rw [PPop_snd]
      simp only [PPush_PSP, hst2]
      omega
    have hcell : read16 (FETCHBYTE (PStack_Push16
        (STOREBYTE (PStack_Push16 (PStack_Push16 s x) a)) a))
        (s.PSP + s.PSP) = signExt8 x := by
      simp only [FETCHBYTE]
      rw [hB1, hbyte, signExt8_mod256]
      rw [read16_congr _ (s.PSP + s.PSP)
        ((PStack_Pop16 (PStack_Push16
          (STOREBYTE (PStack_Push16 (PStack_Push16 s x) a)) a)).snd.PSP
         + (PStack_Pop16 (PStack_Push16
          (STOREBYTE (PStack_Push16 (PStack_Push16 s x) a)) a)).snd.PSP) (by
          rw [hm3psp])]
      rw [PPush_read16_same]
      exact Nat.mod_eq_of_lt (signExt8_lt x)
    have hfpsp : (FETCHBYTE (PStack_Push16
        (STOREBYTE (PStack_Push16 (PStack_Push16 s x) a)) a)).PSP
        = (s.PSP + 2) % 65536 := by
      simp only [FETCHBYTE, PPush_PSP, hm3psp]
    refine ⟨hst1, hst2, hcell, ?_, ?_, hfpsp⟩
    · rw [hcell, toInt16_signExt8]
    · simp only [FETCHBYTE]
      rw [hB1, hbyte, signExt8_mod256, PPop_PPush_fst]
      exact Nat.mod_eq_of_lt (signExt8_lt x)
  · decide

/-- Witness for C8 on `zeroMachine` with `x = 255`, `a = 12288`: the
stored byte reads back as 255 and the byte-fetch pushes the 16-bit
pattern 0xFFFF (signed value −1). -/
theorem byte_store_fetch_sign_extend_witness :
    (12288 : Nat) < 65536 ∧
    ¬ (12288 : Nat) = (zeroMachine.PSP + zeroMachine.PSP) % 65536 ∧
    read8 (STOREBYTE (PStack_Push16 (PStack_Push16 zeroMachine 255) 12288))
      12288 = 255 ∧
    (PStack_Pop16 (FETCHBYTE (PStack_Push16
      (STOREBYTE (PStack_Push16 (PStack_Push16 zeroMachine 255) 12288))
      12288))).fst = 65535 := by
  have h := byte_store_fetch_sign_extend.1 zeroMachine 12288 255 (by omega)
    (by omega) (by decide) (by decide) (by decide)
  refine ⟨by omega, by decide, ?_, ?_⟩
  · rw [h.1]
  · rw [h.2.2.2.2.1]
    decide

end IndirectForth
